import Mathlib

/-!
Verification of the xize extent accounting core.

This file gives a shallow embedding of the extent record classifier
(`IoctlSearchItem::parse`), the paginated search-v2 iterator
(`Sv2ItemIter`), the statistics merge (`ExtentStat::merge`,
`CompsizeStat::merge`) and the dedup/accounting loop (`Worker::run`
together with the `ExtentMap` actor) of the repository, and proves the
frozen claims about them.

Machine integers (`u64`/`u32`) are modelled as `Nat`; wherever the Rust
code performs wrapping `u64` arithmetic the embedding reduces modulo
`2 ^ 64` explicitly (`w64`, `u64sub`).  The kernel side of the
`SEARCH_V2` ioctl is modelled as a function from the request's
`min_offset` to the list of items it places in the reusable buffer, and
the buffer itself is modelled as that list of decoded items with the
byte cursor `pos` abstracted to an item index (items are stored
consecutively, and `pos` advances by exactly one item per `next`).
-/

namespace Xize

/-- Wrapping `u64` arithmetic: reduce modulo `2 ^ 64`. -/
def w64 (n : Nat) : Nat := n % 2 ^ 64

/-- Wrapping `u64` subtraction `a - b` (two's complement wrap-around),
as performed by release-profile Rust on underflow. -/
def u64sub (a b : Nat) : Nat := (a + (2 ^ 64 - b)) % 2 ^ 64

/-- `btrfs_ioctl_search_header`: record header of one search result
(fields `transid`, `objectid`, `offset`, `type`, `len`, decoded from
fixed little-endian layout in `IoctlSearchHeader::from_le_raw`). -/
structure IoctlSearchHeader where
  transid : Nat
  objectid : Nat
  offset : Nat
  type : Nat
  len : Nat
deriving DecidableEq, Repr

/-- `btrfs_file_extent_item` payload (`FileExtentItem` in the source):
generation, ram_bytes, compression, encryption, other_encoding, type,
then the four non-inline `u64` fields. -/
structure FileExtentItem where
  generation : Nat
  ram_bytes : Nat
  compression : Nat
  encryption : Nat
  other_encoding : Nat
  type : Nat
  disk_bytenr : Nat
  disk_num_bytes : Nat
  offset : Nat
  num_bytes : Nat
deriving DecidableEq, Repr

/-- One decoded search item: header plus extent payload
(`IoctlSearchItem` in the source). -/
structure IoctlSearchItem where
  header : IoctlSearchHeader
  item : FileExtentItem
deriving DecidableEq, Repr

/-- `Compression`: the closed enum of the four known compression codes. -/
inductive Compression where
  | None
  | Zlib
  | Lzo
  | Zstd
deriving DecidableEq, Repr

/-- `Compression::as_usize`. -/
def Compression.as_usize : Compression → Nat
  | .None => 0
  | .Zlib => 1
  | .Lzo => 2
  | .Zstd => 3

/-- `Compression::from_usize`.  The source aborts (`panic`) on an
unknown code; the abort is modelled as `none`, which
`IoctlSearchItem.parse` turns into a fatal error. -/
def Compression.from_usize (n : Nat) : Option Compression :=
  match n with
  | 0 => some .None
  | 1 => some .Zlib
  | 2 => some .Lzo
  | 3 => some .Zstd
  | _ => none

/-- `ExtentType`: inline, regular or preallocated extent. -/
inductive ExtentType where
  | Inline
  | Regular
  | Prealloc
deriving DecidableEq, Repr

/-- `ExtentType::from_u8` (codes 0, 1, 2).  The source aborts on any
other code; the abort is modelled as `none`. -/
def ExtentType.from_u8 (n : Nat) : Option ExtentType :=
  match n with
  | 0 => some .Inline
  | 1 => some .Regular
  | 2 => some .Prealloc
  | _ => none

/-- `ExtentKey`: identity of a physical extent, `(type, key)`; `key` is
meaningless for `Inline`. -/
structure ExtentKey where
  type : ExtentType
  key : Nat
deriving DecidableEq, Repr

/-- `ExtentStat`: the `(disk, uncomp, refd)` byte triple. -/
structure ExtentStat where
  disk : Nat
  uncomp : Nat
  refd : Nat
deriving DecidableEq, Repr

/-- `IoctlSearchItem::parse` from `src/btrfs.rs`: classify one decoded
record.  `.error` covers both the explicit `Err` returns and the aborts
inside `Compression::from_usize` / `ExtentType::from_u8`; `.ok none` is
the "no extent" (hole) result; the inline branch computes
`hlen as u64 - 21` with wrapping `u64` subtraction. -/
def IoctlSearchItem.parse (s : IoctlSearchItem) :
    Except String (Option (ExtentKey × Compression × ExtentStat)) :=
  let hlen := s.header.len
  let ram_bytes := s.item.ram_bytes
  match Compression.from_usize s.item.compression with
  | none => .error "Invalid compression type"
  | some comp_type =>
    match ExtentType.from_u8 s.item.type with
    | none => .error "Invalid extent type"
    | some extent_type =>
      if extent_type = ExtentType.Inline then
        .ok (some (ExtentKey.mk extent_type 0, comp_type,
          ExtentStat.mk (u64sub hlen 21) ram_bytes ram_bytes))
      else if hlen ≠ 53 then
        .error "Regular extent header not 53 bytes long"
      else
        let disk_bytenr := s.item.disk_bytenr
        if disk_bytenr = 0 then
          .ok none
        else if disk_bytenr &&& 0xfff ≠ 0 then
          .error "Extent not 4k aligned"
        else
          .ok (some (ExtentKey.mk extent_type (disk_bytenr >>> 12), comp_type,
            ExtentStat.mk s.item.disk_num_bytes ram_bytes s.item.num_bytes))

/-- `IoctlSearchItem::parse` from the inline `mod btrfs` of
`src/main.rs`: identical to the `src/btrfs.rs` version except that a
hole (`disk_bytenr == 0`) is not reported as "no extent" but as an
ordinary tuple carrying the record's (non-inline) extent type, key `0`
and an all-zero stat triple. -/
def IoctlSearchItem.parseMain (s : IoctlSearchItem) :
    Except String (ExtentKey × Compression × ExtentStat) :=
  let hlen := s.header.len
  let ram_bytes := s.item.ram_bytes
  match Compression.from_usize s.item.compression with
  | none => .error "Invalid compression type"
  | some comp_type =>
    match ExtentType.from_u8 s.item.type with
    | none => .error "Invalid extent type"
    | some extent_type =>
      if extent_type = ExtentType.Inline then
        .ok (ExtentKey.mk extent_type 0, comp_type,
          ExtentStat.mk (u64sub hlen 21) ram_bytes ram_bytes)
      else if hlen ≠ 53 then
        .error "Regular extent header not 53 bytes long"
      else
        let disk_bytenr := s.item.disk_bytenr
        if disk_bytenr = 0 then
          .ok (ExtentKey.mk extent_type 0, comp_type, ExtentStat.mk 0 0 0)
        else if disk_bytenr &&& 0xfff ≠ 0 then
          .error "Extent not 4k aligned"
        else
          .ok (ExtentKey.mk extent_type (disk_bytenr >>> 12), comp_type,
            ExtentStat.mk s.item.disk_num_bytes ram_bytes s.item.num_bytes)

/-- Classify a whole stream of records in order, stopping at the first
fatal error — the shape of a worker's per-file processing loop, which
calls `parse` on each yielded item and aborts the session on failure. -/
def parseAll : List IoctlSearchItem →
    Except String (List (Option (ExtentKey × Compression × ExtentStat)))
  | [] => .ok []
  | x :: r =>
    match x.parse with
    | .error e => .error e
    | .ok v =>
      match parseAll r with
      | .error e => .error e
      | .ok vs => .ok (v :: vs)

/-- The mutable state of `Sv2ItemIter` together with the one piece of
`Sv2Args` it reads and writes during iteration: `minOffset` is
`sv2_arg.key.min_offset`, `buf` is the decoded content of
`sv2_arg.buf` (the reusable 64 KiB buffer, abstracted to the list of
items the kernel stored in it), `pos` the cursor (item index), and
`nrestItem` / `last` the fields of the same name. -/
structure SearchState where
  minOffset : Nat
  buf : List IoctlSearchItem
  pos : Nat
  nrestItem : Nat
  last : Bool
deriving DecidableEq, Repr

/-- A kernel model for the `SEARCH_V2` ioctl: given the request's
`min_offset` it returns the items it places in the buffer (the ioctl
also writes their count back into `key.nr_items`, modelled by taking
the length of this list). -/
abbrev SearchKernel := Nat → List IoctlSearchItem

/-- `Sv2ItemIter::call_ioctl`: issue the query, then set
`nrest_item` to the returned item count, `last` to whether that count
is at most 512, and reset the cursor. -/
def callIoctl (kernel : SearchKernel) (s : SearchState) : SearchState :=
  let page := kernel s.minOffset
  { s with buf := page, nrestItem := page.length,
           last := decide (page.length ≤ 512), pos := 0 }

/-- `Sv2ItemIter::need_ioctl`. -/
def needIoctl (s : SearchState) : Bool :=
  s.nrestItem == 0 && !s.last

/-- `Sv2ItemIter::finish`. -/
def finish (s : SearchState) : Bool :=
  s.nrestItem == 0 && s.last

/-- The tail of `Sv2ItemIter::next` after the possible `call_ioctl`:
stop if finished, otherwise read the item at the cursor, advance the
cursor, decrement `nrest_item`, and when the buffer just became empty
record `min_offset := ret.header.offset + 1` for the next page. -/
def nextStep (s : SearchState) : Option (IoctlSearchItem × SearchState) :=
  if finish s then none
  else
    match s.buf[s.pos]? with
    | none => none
    | some ret =>
      let s1 : SearchState :=
        { s with pos := s.pos + 1, nrestItem := s.nrestItem - 1 }
      let s2 : SearchState :=
        if s1.nrestItem == 0 then
          { s1 with minOffset := w64 (ret.header.offset + 1) }
        else s1
      some (ret, s2)

/-- `Sv2ItemIter::next`: refresh the buffer when it is exhausted and
more pages may remain, then take the next item. -/
def next (kernel : SearchKernel) (s : SearchState) :
    Option (IoctlSearchItem × SearchState) :=
  nextStep (if needIoctl s then callIoctl kernel s else s)

/-- `Sv2ItemIter::new`: reset `min_offset` to 0 (and `nr_items` to the
maximum), then issue the first page load. -/
def initState (kernel : SearchKernel) : SearchState :=
  callIoctl kernel (SearchState.mk 0 [] 0 0 false)

/-- Drain the session: repeatedly call `next` and collect the yielded
items, with explicit fuel (the iterator is driven by an external
`for` loop; fuel bounds the number of `next` calls). -/
def sessionItems (kernel : SearchKernel) : Nat → SearchState → List IoctlSearchItem
  | 0, _ => []
  | fuel + 1, s =>
    match next kernel s with
    | none => []
    | some (it, s1) => it :: sessionItems kernel fuel s1

/-- Drain the session as in `sessionItems` but count how many further
ioctl queries (`call_ioctl` invocations inside `next`) are issued. -/
def sessionIoctls (kernel : SearchKernel) : Nat → SearchState → Nat
  | 0, _ => 0
  | fuel + 1, s =>
    let c := if needIoctl s then 1 else 0
    match next kernel s with
    | none => c
    | some (_, s1) => c + sessionIoctls kernel fuel s1

/-- Logical offset of the last item of a page (0 for an empty page). -/
def lastOffset (q : List IoctlSearchItem) : Nat :=
  (q.getLast?.map fun it => it.header.offset).getD 0

/-- `Streams kernel m ps`: queried at `min_offset = m` the kernel
serves the first page of `ps`, and — continued at one past that page's
last logical offset, which is exactly where the iterator resumes —
streams the remaining pages; after the last page it returns an empty
page.  This is how an arbitrary partition of a record sequence into
successive page loads presents itself to the session. -/
def Streams (kernel : SearchKernel) : Nat → List (List IoctlSearchItem) → Prop
  | m, [] => kernel m = []
  | m, p :: rest =>
    kernel m = p ∧ p ≠ [] ∧ Streams kernel (w64 (lastOffset p + 1)) rest

/-- Every page except possibly the final one holds more than 512
items (the low-water termination threshold of `call_ioctl`). -/
def nonFinalBig : List (List IoctlSearchItem) → Prop
  | [] => True
  | [_] => True
  | p :: rest => 512 < p.length ∧ nonFinalBig rest

/-- `ExtentStat::merge`: field-wise wrapping `u64` addition (the source
mutates `self`; modelled as returning the merged value). -/
def ExtentStat.merge (a b : ExtentStat) : ExtentStat :=
  ExtentStat.mk (w64 (a.disk + b.disk)) (w64 (a.uncomp + b.uncomp))
    (w64 (a.refd + b.refd))

/-- `CompsizeStat`: counters plus the prealloc bucket and the array of
four per-compression buckets (`[ExtentStat; 4]` indexed by
`Compression::as_usize`, modelled as a total map on the four
compression codes). -/
structure CompsizeStat where
  nfile : Nat
  ninline : Nat
  nref : Nat
  nextent : Nat
  prealloc : ExtentStat
  stat : Compression → ExtentStat

/-- The all-zero `CompsizeStat` (`Default` in the source). -/
def CompsizeStat.zero : CompsizeStat :=
  CompsizeStat.mk 0 0 0 0 (ExtentStat.mk 0 0 0) (fun _ => ExtentStat.mk 0 0 0)

/-- `CompsizeStat::merge`: add every counter and merge the buckets
field-wise. -/
def CompsizeStat.merge (a b : CompsizeStat) : CompsizeStat :=
  CompsizeStat.mk (w64 (a.nfile + b.nfile)) (w64 (a.ninline + b.ninline))
    (w64 (a.nref + b.nref)) (w64 (a.nextent + b.nextent))
    (a.prealloc.merge b.prealloc)
    (fun c => (a.stat c).merge (b.stat c))

/-- The deduplication set's only operation, as served by the
`ExtentMap` actor: `self.map.insert(key)` on the `IntSet<u64>`, whose
result is `true` iff the id was newly inserted; the pair returns that
answer together with the updated set. -/
def dedupInsert (m : Finset ℕ) (k : ℕ) : Bool × Finset ℕ :=
  (decide (k ∉ m), insert k m)

/-- One classified extent record as consumed by the worker loop. -/
abbrev ExtentRecord := ExtentKey × Compression × ExtentStat

/-- The per-record accounting step of `Worker::run` (`src/main.rs`),
with the `ExtentMap` round-trip inlined as `dedupInsert`: inline
records bump `ninline` and add all three fields to their compression
bucket; regular records bump `nref`, consult the dedup set, add
`disk`/`uncomp` only when newly inserted and `refd` always; prealloc
records do the same against the separate prealloc bucket. -/
def workerStep (m : Finset ℕ) (ret : CompsizeStat) :
    ExtentRecord → Finset ℕ × CompsizeStat
  | (key, comp, stat) =>
    match key.type with
    | .Inline =>
      (m, { ret with
              ninline := w64 (ret.ninline + 1),
              stat := fun c =>
                if c = comp then
                  ExtentStat.mk (w64 ((ret.stat comp).disk + stat.disk))
                    (w64 ((ret.stat comp).uncomp + stat.uncomp))
                    (w64 ((ret.stat comp).refd + stat.refd))
                else ret.stat c })
    | .Regular =>
      let ins := dedupInsert m key.key
      (ins.2, { ret with
                  nref := w64 (ret.nref + 1),
                  stat := fun c =>
                    if c = comp then
                      ExtentStat.mk
                        (if ins.1 then w64 ((ret.stat comp).disk + stat.disk)
                         else (ret.stat comp).disk)
                        (if ins.1 then w64 ((ret.stat comp).uncomp + stat.uncomp)
                         else (ret.stat comp).uncomp)
                        (w64 ((ret.stat comp).refd + stat.refd))
                    else ret.stat c })
    | .Prealloc =>
      let ins := dedupInsert m key.key
      (ins.2, { ret with
                  nref := w64 (ret.nref + 1),
                  prealloc := ExtentStat.mk
                    (if ins.1 then w64 (ret.prealloc.disk + stat.disk)
                     else ret.prealloc.disk)
                    (if ins.1 then w64 (ret.prealloc.uncomp + stat.uncomp)
                     else ret.prealloc.uncomp)
                    (w64 (ret.prealloc.refd + stat.refd)) })

/-- Run the worker accounting loop over a serialized sequence of
classified records (the `ExtentMap` actor serializes all workers'
insertions, so any interleaving of the run is such a sequence),
threading the shared dedup set and the accumulated statistics. -/
def workerRun (m : Finset ℕ) (ret : CompsizeStat) :
    List ExtentRecord → Finset ℕ × CompsizeStat
  | [] => (m, ret)
  | e :: r =>
    let st := workerStep m ret e
    workerRun st.1 st.2 r

/-- The ids of the non-inline records of a sequence, in order. -/
def nonInlineIds (l : List ExtentRecord) : List ℕ :=
  l.filterMap fun e => if e.1.type = ExtentType.Inline then none else some e.1.key

/-- The set of non-inline ids of a sequence. -/
def idsOf (l : List ExtentRecord) : Finset ℕ :=
  (nonInlineIds l).toFinset

/-- The subsequence of records that are the first-ever sight of their
physical id (relative to the ids already in `seen`); inline records
never participate. -/
def firstOccs (seen : Finset ℕ) : List ExtentRecord → List ExtentRecord
  | [] => []
  | e :: r =>
    match e.1.type with
    | .Inline => firstOccs seen r
    | _ =>
      if e.1.key ∈ seen then firstOccs seen r
      else e :: firstOccs (insert e.1.key seen) r

/-- Total `disk` bytes of the regular records of bucket `c`. -/
def regDisk (c : Compression) (l : List ExtentRecord) : Nat :=
  (l.map fun e =>
    if e.1.type = ExtentType.Regular ∧ e.2.1 = c then e.2.2.disk else 0).sum

/-- Total `uncomp` bytes of the regular records of bucket `c`. -/
def regUncomp (c : Compression) (l : List ExtentRecord) : Nat :=
  (l.map fun e =>
    if e.1.type = ExtentType.Regular ∧ e.2.1 = c then e.2.2.uncomp else 0).sum

/-- Total `refd` bytes of the regular records of bucket `c`. -/
def regRefd (c : Compression) (l : List ExtentRecord) : Nat :=
  (l.map fun e =>
    if e.1.type = ExtentType.Regular ∧ e.2.1 = c then e.2.2.refd else 0).sum

/-- Total `disk` bytes of the prealloc records. -/
def preDisk (l : List ExtentRecord) : Nat :=
  (l.map fun e =>
    if e.1.type = ExtentType.Prealloc then e.2.2.disk else 0).sum

/-- Total `uncomp` bytes of the prealloc records. -/
def preUncomp (l : List ExtentRecord) : Nat :=
  (l.map fun e =>
    if e.1.type = ExtentType.Prealloc then e.2.2.uncomp else 0).sum

/-- Total `refd` bytes of the prealloc records. -/
def preRefd (l : List ExtentRecord) : Nat :=
  (l.map fun e =>
    if e.1.type = ExtentType.Prealloc then e.2.2.refd else 0).sum

/-- A hole record: non-inline (Regular), payload length 53, physical
byte offset 0. -/
def holeItem : IoctlSearchItem :=
  IoctlSearchItem.mk (IoctlSearchHeader.mk 0 257 0 108 53)
    (FileExtentItem.mk 1 4096 0 0 0 1 0 0 0 4096)

/-- A concrete regular record at logical offset 0. -/
def cexItem0 : IoctlSearchItem :=
  IoctlSearchItem.mk (IoctlSearchHeader.mk 0 257 0 108 53)
    (FileExtentItem.mk 1 4096 0 0 0 1 4096 4096 0 4096)

/-- A concrete regular record at logical offset 4096. -/
def cexItem1 : IoctlSearchItem :=
  IoctlSearchItem.mk (IoctlSearchHeader.mk 0 257 4096 108 53)
    (FileExtentItem.mk 1 4096 0 0 0 1 8192 4096 0 4096)

/-- A kernel that partitions the two records `cexItem0, cexItem1` into
two successive single-item pages. -/
def cexKernel : SearchKernel := fun m =>
  if m = 0 then [cexItem0] else if m = 1 then [cexItem1] else []

/-- The single-page kernel for the C3 witness: both records in one
page. -/
def c3wKernel : SearchKernel := fun m =>
  if m = 0 then [cexItem0, cexItem1] else []

/-- A kernel returning one single-record page everywhere. -/
def c4Kernel : SearchKernel := fun _ => [cexItem0]

/-- Every per-bucket counter of the aggregate is a reduced `u64`
value. -/
def statBounded (acc : CompsizeStat) : Prop :=
  (∀ c, (acc.stat c).disk < 2 ^ 64 ∧ (acc.stat c).uncomp < 2 ^ 64 ∧
    (acc.stat c).refd < 2 ^ 64) ∧
  acc.prealloc.disk < 2 ^ 64 ∧ acc.prealloc.uncomp < 2 ^ 64 ∧
  acc.prealloc.refd < 2 ^ 64

/-- A concrete three-record run: the same regular id 7 referenced
twice, then a prealloc extent with id 9. -/
def c8List : List ExtentRecord :=
  [(ExtentKey.mk ExtentType.Regular 7, Compression.None, ExtentStat.mk 10 20 30),
   (ExtentKey.mk ExtentType.Regular 7, Compression.None, ExtentStat.mk 10 20 5),
   (ExtentKey.mk ExtentType.Prealloc 9, Compression.Zstd, ExtentStat.mk 4 6 8)]

/-- The kernel for the C5 witness: no further records. -/
def c5Kernel : SearchKernel := fun _ => []

/-! ### Helper lemmas -/

theorem and_fff_eq_mod (x : Nat) : x &&& 0xfff = x % 4096 := by
  have h := Nat.and_pow_two_sub_one_eq_mod x 12
  norm_num at h
  exact h

theorem from_usize_none_iff (n : Nat) :
    Compression.from_usize n = none ↔ 4 ≤ n := by
  rcases n with _ | _ | _ | _ | m <;> simp [Compression.from_usize]

theorem from_u8_none_iff (n : Nat) :
    ExtentType.from_u8 n = none ↔ 3 ≤ n := by
  rcases n with _ | _ | _ | m <;> simp [ExtentType.from_u8]

theorem parseAll_error (s : IoctlSearchItem) (h : s.parse.isOk = false) :
    ∀ p r, (parseAll (p ++ s :: r)).isOk = false := by
  intro p
  induction p with
  | nil =>
    intro r
    rcases hp : s.parse with e | v
    · simp [parseAll, hp, Except.isOk, Except.toBool]
    · rw [hp] at h; simp [Except.isOk, Except.toBool] at h
  | cons x xs ih =>
    intro r
    rcases hx : x.parse with e | v
    · simp [parseAll, hx, Except.isOk, Except.toBool]
    · rcases ht : parseAll (xs ++ s :: r) with e | vs
      · simp [parseAll, hx, ht, Except.isOk, Except.toBool]
      · have := ih r
        rw [ht] at this
        simp [Except.isOk, Except.toBool] at this

/-! ### Claims about the classifier -/

/-- Claim C2: the classifier signals a fatal parse error exactly on a
non-inline record with payload length other than 53, a non-inline
record with a nonzero misaligned physical offset, an unknown
compression code, or an unknown extent-type code; and such an error
terminates the session's processing of the record stream. -/
theorem c2_fatal_error_iff (s : IoctlSearchItem) :
    (s.parse.isOk = false ↔
      (4 ≤ s.item.compression ∨ 3 ≤ s.item.type ∨
        ((s.item.type = 1 ∨ s.item.type = 2) ∧ s.header.len ≠ 53) ∨
        ((s.item.type = 1 ∨ s.item.type = 2) ∧ s.item.disk_bytenr ≠ 0 ∧
          ¬(4096 ∣ s.item.disk_bytenr)))) ∧
    (∀ p r, s.parse.isOk = false → (parseAll (p ++ s :: r)).isOk = false) := by
  refine ⟨?_, fun p r h => parseAll_error s h p r⟩
  rcases hc : Compression.from_usize s.item.compression with _ | c
  · have h4 := (from_usize_none_iff s.item.compression).1 hc
    simp [IoctlSearchItem.parse, hc, Except.isOk, Except.toBool, h4]
  · have h4 : ¬ 4 ≤ s.item.compression := by
      intro hge
      rw [(from_usize_none_iff s.item.compression).2 hge] at hc
      exact Option.noConfusion hc
    rcases ht : ExtentType.from_u8 s.item.type with _ | t
    · have h3 := (from_u8_none_iff s.item.type).1 ht
      simp [IoctlSearchItem.parse, hc, ht, Except.isOk, Except.toBool, h3]
    · have h3 : ¬ 3 ≤ s.item.type := by
        intro hge
        rw [(from_u8_none_iff s.item.type).2 hge] at ht
        exact Option.noConfusion ht
      have htv : s.item.type = 0 ∨ s.item.type = 1 ∨ s.item.type = 2 := by omega
      rcases htv with h0 | h1 | h2
      · -- inline: always succeeds
        rw [h0] at ht
        have htI : t = ExtentType.Inline := by
          simp [ExtentType.from_u8] at ht; exact ht.symm
        simp [IoctlSearchItem.parse, hc, ht, h0, htI, Except.isOk, Except.toBool, h4]
      · rw [h1] at ht
        have htR : t = ExtentType.Regular := by
          simp [ExtentType.from_u8] at ht; exact ht.symm
        subst htR
        by_cases hlen : s.header.len = 53
        · by_cases hz : s.item.disk_bytenr = 0
          · simp [IoctlSearchItem.parse, hc, ht, h1, hlen, hz, Except.isOk,
              Except.toBool, h4]
          · by_cases hal : 4096 ∣ s.item.disk_bytenr
            · have : s.item.disk_bytenr &&& 0xfff = 0 := by
                rw [and_fff_eq_mod]
                exact Nat.dvd_iff_mod_eq_zero.mp hal
              simp [IoctlSearchItem.parse, hc, ht, h1, hlen, hz, this,
                Except.isOk, Except.toBool, h4, hal]
            · have : s.item.disk_bytenr &&& 0xfff ≠ 0 := by
                rw [and_fff_eq_mod]
                intro hmod
                exact hal (Nat.dvd_iff_mod_eq_zero.mpr hmod)
              simp [IoctlSearchItem.parse, hc, ht, h1, hlen, hz, this,
                Except.isOk, Except.toBool, h4, hal]
        · simp [IoctlSearchItem.parse, hc, ht, h1, hlen, Except.isOk,
            Except.toBool, h4]
      · rw [h2] at ht
        have htP : t = ExtentType.Prealloc := by
          simp [ExtentType.from_u8] at ht; exact ht.symm
        subst htP
        by_cases hlen : s.header.len = 53
        · by_cases hz : s.item.disk_bytenr = 0
          · simp [IoctlSearchItem.parse, hc, ht, h2, hlen, hz, Except.isOk,
              Except.toBool, h4]
          · by_cases hal : 4096 ∣ s.item.disk_bytenr
            · have : s.item.disk_bytenr &&& 0xfff = 0 := by
                rw [and_fff_eq_mod]
                exact Nat.dvd_iff_mod_eq_zero.mp hal
              simp [IoctlSearchItem.parse, hc, ht, h2, hlen, hz, this,
                Except.isOk, Except.toBool, h4, hal]
            · have : s.item.disk_bytenr &&& 0xfff ≠ 0 := by
                rw [and_fff_eq_mod]
                intro hmod
                exact hal (Nat.dvd_iff_mod_eq_zero.mpr hmod)
              simp [IoctlSearchItem.parse, hc, ht, h2, hlen, hz, this,
                Except.isOk, Except.toBool, h4, hal]
        · simp [IoctlSearchItem.parse, hc, ht, h2, hlen, Except.isOk,
            Except.toBool, h4]

/-- Witness for C2 at a concrete input: a non-inline record with
payload length 40 is rejected, and a session containing it fails. -/
theorem c2_fatal_error_iff_witness :
    (parseAll [IoctlSearchItem.mk (IoctlSearchHeader.mk 0 257 0 108 40)
      (FileExtentItem.mk 1 4096 0 0 0 1 4096 4096 0 4096)]).isOk = false := by
  have h := c2_fatal_error_iff (IoctlSearchItem.mk
    (IoctlSearchHeader.mk 0 257 0 108 40)
    (FileExtentItem.mk 1 4096 0 0 0 1 4096 4096 0 4096))
  exact h.2 [] [] (h.1.mpr (by decide))

/-- Claim C6: a non-inline record with payload length 53, nonzero
4096-aligned physical offset and valid codes parses to the key
`disk_bytenr >>> 12` with `disk = disk_num_bytes`,
`uncomp = ram_bytes` and `refd = num_bytes`. -/
theorem c6_regular_parse (s : IoctlSearchItem)
    (htype : s.item.type = 1 ∨ s.item.type = 2)
    (hcomp : s.item.compression < 4)
    (hlen : s.header.len = 53)
    (hnz : s.item.disk_bytenr ≠ 0)
    (halign : 4096 ∣ s.item.disk_bytenr) :
    ∃ c t, Compression.from_usize s.item.compression = some c ∧
      ExtentType.from_u8 s.item.type = some t ∧
      s.parse = .ok (some (ExtentKey.mk t (s.item.disk_bytenr >>> 12), c,
        ExtentStat.mk s.item.disk_num_bytes s.item.ram_bytes s.item.num_bytes)) := by
  have hand : s.item.disk_bytenr &&& 0xfff = 0 := by
    rw [and_fff_eq_mod]
    exact Nat.dvd_iff_mod_eq_zero.mp halign
  obtain ⟨c, hc⟩ : ∃ c, Compression.from_usize s.item.compression = some c := by
    interval_cases h : s.item.compression <;> exact ⟨_, rfl⟩
  rcases htype with h1 | h1
  · exact ⟨c, ExtentType.Regular, hc, by rw [h1]; rfl,
      by simp [IoctlSearchItem.parse, hc, h1, ExtentType.from_u8, hlen, hnz, hand]⟩
  · exact ⟨c, ExtentType.Prealloc, hc, by rw [h1]; rfl,
      by simp [IoctlSearchItem.parse, hc, h1, ExtentType.from_u8, hlen, hnz, hand]⟩

/-- Witness for C6 at a concrete well-formed regular record. -/
theorem c6_regular_parse_witness :
    ∃ c t, Compression.from_usize 2 = some c ∧
      ExtentType.from_u8 1 = some t ∧
      (IoctlSearchItem.mk (IoctlSearchHeader.mk 7 257 0 108 53)
        (FileExtentItem.mk 9 8192 2 0 0 1 8192 4096 0 4096)).parse =
        .ok (some (ExtentKey.mk t (8192 >>> 12), c,
          ExtentStat.mk 4096 8192 4096)) :=
  c6_regular_parse
    (IoctlSearchItem.mk (IoctlSearchHeader.mk 7 257 0 108 53)
      (FileExtentItem.mk 9 8192 2 0 0 1 8192 4096 0 4096))
    (Or.inl rfl) (by decide) rfl (by decide) (by decide)

/-- Claim C7: an inline record with a valid compression code and
declared record length at least 21 parses to an `Inline` key with
`disk = len - 21` and `uncomp = refd = ram_bytes`; and inline keys
never touch the deduplication set in the worker's accounting step. -/
theorem c7_inline_parse (s : IoctlSearchItem)
    (htype : s.item.type = 0)
    (hcomp : s.item.compression < 4)
    (hlen21 : 21 ≤ s.header.len)
    (hlen32 : s.header.len < 2 ^ 32) :
    (∃ c, Compression.from_usize s.item.compression = some c ∧
      s.parse = .ok (some (ExtentKey.mk ExtentType.Inline 0, c,
        ExtentStat.mk (s.header.len - 21) s.item.ram_bytes s.item.ram_bytes))) ∧
    (∀ (m : Finset ℕ) (acc : CompsizeStat) (k : ExtentKey) (c : Compression)
      (st : ExtentStat), k.type = ExtentType.Inline →
        (workerStep m acc (k, c, st)).1 = m) := by
  constructor
  · obtain ⟨c, hc⟩ : ∃ c, Compression.from_usize s.item.compression = some c := by
      interval_cases h : s.item.compression <;> exact ⟨_, rfl⟩
    have hsub : u64sub s.header.len 21 = s.header.len - 21 := by
      unfold u64sub
      omega
    exact ⟨c, hc,
      by simp [IoctlSearchItem.parse, hc, htype, ExtentType.from_u8, hsub]⟩
  · intro m acc k c st hk
    obtain ⟨ty, key⟩ := k
    cases ty
    · simp [workerStep]
    · exact absurd hk (by simp)
    · exact absurd hk (by simp)

/-- Witness for C7 at a concrete inline record of declared length 100. -/
theorem c7_inline_parse_witness :
    (∃ c, Compression.from_usize 3 = some c ∧
      (IoctlSearchItem.mk (IoctlSearchHeader.mk 7 257 0 108 100)
        (FileExtentItem.mk 9 500 3 0 0 0 0 0 0 0)).parse =
        .ok (some (ExtentKey.mk ExtentType.Inline 0, c,
          ExtentStat.mk (100 - 21) 500 500))) ∧
    (∀ (m : Finset ℕ) (acc : CompsizeStat) (k : ExtentKey) (c : Compression)
      (st : ExtentStat), k.type = ExtentType.Inline →
        (workerStep m acc (k, c, st)).1 = m) :=
  c7_inline_parse
    (IoctlSearchItem.mk (IoctlSearchHeader.mk 7 257 0 108 100)
      (FileExtentItem.mk 9 500 3 0 0 0 0 0 0 0))
    rfl (by decide) (by decide) (by decide)

/-- Claim C10: the classifier does not validate an inline record's
declared length before subtracting the 21-byte inline header: for a
declared length below 21 it still succeeds, and the resulting `disk`
is the difference wrapped modulo `2 ^ 64` (release-profile `u64`
underflow). -/
theorem c10_inline_underflow (s : IoctlSearchItem)
    (htype : s.item.type = 0)
    (hcomp : s.item.compression < 4)
    (_hlen : s.header.len < 21) :
    ∃ c, Compression.from_usize s.item.compression = some c ∧
      s.parse = .ok (some (ExtentKey.mk ExtentType.Inline 0, c,
        ExtentStat.mk ((((s.header.len : ℤ) - 21) % 2 ^ 64).toNat)
          s.item.ram_bytes s.item.ram_bytes)) := by
  obtain ⟨c, hc⟩ : ∃ c, Compression.from_usize s.item.compression = some c := by
    interval_cases h : s.item.compression <;> exact ⟨_, rfl⟩
  have hsub : u64sub s.header.len 21 = (((s.header.len : ℤ) - 21) % 2 ^ 64).toNat := by
    unfold u64sub
    omega
  exact ⟨c, hc,
    by simp [IoctlSearchItem.parse, hc, htype, ExtentType.from_u8, hsub]⟩

/-- Witness for C10: an inline record of declared length 10 parses
successfully with `disk = 2 ^ 64 - 11`. -/
theorem c10_inline_underflow_witness :
    ∃ c, Compression.from_usize 0 = some c ∧
      (IoctlSearchItem.mk (IoctlSearchHeader.mk 7 257 0 108 10)
        (FileExtentItem.mk 9 5 0 0 0 0 0 0 0 0)).parse =
        .ok (some (ExtentKey.mk ExtentType.Inline 0, c,
          ExtentStat.mk ((((10 : ℤ) - 21) % 2 ^ 64).toNat) 5 5)) :=
  c10_inline_underflow
    (IoctlSearchItem.mk (IoctlSearchHeader.mk 7 257 0 108 10)
      (FileExtentItem.mk 9 5 0 0 0 0 0 0 0 0))
    rfl (by decide) (by decide)

/-- Claim C9: both merges are field-wise addition and are commutative
and associative in the three-way sense
`merge (merge a b) c = merge a (merge b c) = merge b (merge a c)`. -/
theorem c9_merge_comm_assoc :
    ∀ (a b c : ExtentStat) (x y z : CompsizeStat),
      ((a.merge b).merge c = a.merge (b.merge c) ∧
        (a.merge b).merge c = b.merge (a.merge c)) ∧
      ((x.merge y).merge z = x.merge (y.merge z) ∧
        (x.merge y).merge z = y.merge (x.merge z)) := by
  have hE1 : ∀ a b c : ExtentStat, (a.merge b).merge c = a.merge (b.merge c) := by
    intro a b c
    simp only [ExtentStat.merge, ExtentStat.mk.injEq, w64]
    refine ⟨?_, ?_, ?_⟩ <;> omega
  have hE2 : ∀ a b c : ExtentStat, (a.merge b).merge c = b.merge (a.merge c) := by
    intro a b c
    simp only [ExtentStat.merge, ExtentStat.mk.injEq, w64]
    refine ⟨?_, ?_, ?_⟩ <;> omega
  intro a b c x y z
  refine ⟨⟨hE1 a b c, hE2 a b c⟩, ?_, ?_⟩
  · simp only [CompsizeStat.merge, CompsizeStat.mk.injEq, w64]
    refine ⟨?_, ?_, ?_, ?_, hE1 _ _ _, funext fun cc => hE1 _ _ _⟩ <;> omega
  · simp only [CompsizeStat.merge, CompsizeStat.mk.injEq, w64]
    refine ⟨?_, ?_, ?_, ?_, hE2 _ _ _, funext fun cc => hE2 _ _ _⟩ <;> omega


/-- Claim C1 (evidence): the `src/btrfs.rs` classifier returns
"no extent" for a hole as the claim states, but the classifier actually
compiled into the binary — the inline `mod btrfs` of `src/main.rs` —
returns a zeroed `Regular` tuple for the very same record, and the
worker's accounting step then counts it as a reference and inserts the
derived id `0` into the deduplication set. -/
theorem c1_hole_code_bug :
    holeItem.parse = .ok none ∧
    holeItem.parseMain = .ok (ExtentKey.mk ExtentType.Regular 0,
      Compression.None, ExtentStat.mk 0 0 0) ∧
    (workerStep ∅ CompsizeStat.zero (ExtentKey.mk ExtentType.Regular 0,
      Compression.None, ExtentStat.mk 0 0 0)).1 = {0} ∧
    (workerStep ∅ CompsizeStat.zero (ExtentKey.mk ExtentType.Regular 0,
      Compression.None, ExtentStat.mk 0 0 0)).2.nref = 1 := by
  refine ⟨rfl, rfl, by decide, rfl⟩

/-! ### Pagination lemmas -/

theorem needIoctl_callIoctl (k : SearchKernel) (s : SearchState) :
    needIoctl (callIoctl k s) = false := by
  by_cases h : (k s.minOffset).length = 0
  · simp [needIoctl, callIoctl, h]
  · simp [needIoctl, callIoctl, h]

theorem sessionItems_callIoctl (k : SearchKernel) (s : SearchState)
    (h : needIoctl s = true) :
    ∀ fuel, sessionItems k fuel (callIoctl k s) = sessionItems k fuel s := by
  intro fuel
  cases fuel with
  | zero => rfl
  | succ f =>
    have h1 : next k s = nextStep (callIoctl k s) := by
      unfold next
      rw [if_pos h]
    have h2 : next k (callIoctl k s) = nextStep (callIoctl k s) := by
      unfold next
      rw [needIoctl_callIoctl]
      simp
    simp only [sessionItems, h1, h2]

theorem sessionItems_finish (k : SearchKernel) (s : SearchState)
    (h0 : s.nrestItem = 0) (hl : s.last = true) :
    ∀ fuel, sessionItems k fuel s = [] := by
  intro fuel
  cases fuel with
  | zero => rfl
  | succ f =>
    have hni : needIoctl s = false := by simp [needIoctl, h0, hl]
    have hfin : finish s = true := by simp [finish, h0, hl]
    simp [sessionItems, next, hni, nextStep, hfin]

theorem sessionIoctls_finish (k : SearchKernel) (s : SearchState)
    (h0 : s.nrestItem = 0) (hl : s.last = true) :
    ∀ fuel, sessionIoctls k fuel s = 0 := by
  intro fuel
  cases fuel with
  | zero => rfl
  | succ f =>
    have hni : needIoctl s = false := by simp [needIoctl, h0, hl]
    have hfin : finish s = true := by simp [finish, h0, hl]
    simp [sessionIoctls, next, hni, nextStep, hfin]

theorem sessionItems_succ (k : SearchKernel) (f : Nat) (s : SearchState) :
    sessionItems k (f + 1) s =
      match next k s with
      | none => []
      | some (it, s1) => it :: sessionItems k f s1 := rfl

theorem sessionIoctls_succ (k : SearchKernel) (f : Nat) (s : SearchState) :
    sessionIoctls k (f + 1) s =
      match next k s with
      | none => if needIoctl s then 1 else 0
      | some (_, s1) =>
          (if needIoctl s then 1 else 0) + sessionIoctls k f s1 := rfl

theorem midPage_items (k : SearchKernel) :
    ∀ (q : List IoctlSearchItem) (f : Nat) (mo : Nat)
      (buf : List IoctlSearchItem) (pos : Nat) (la : Bool),
      buf.drop pos = q → q ≠ [] →
      sessionItems k (f + q.length) (SearchState.mk mo buf pos q.length la) =
        q ++ sessionItems k f
          (SearchState.mk (w64 (lastOffset q + 1)) buf (pos + q.length) 0 la) := by
  intro q
  induction q with
  | nil => intro f mo buf pos la _ h3; exact absurd rfl h3
  | cons a q' ih =>
    intro f mo buf pos la h1 _
    have hget : buf[pos]? = some a := by
      rw [← List.head?_drop, h1]
      rfl
    cases q' with
    | nil =>
      have el : ([a] : List IoctlSearchItem).length = 1 := rfl
      rw [el]
      have hnext : next k (SearchState.mk mo buf pos 1 la) =
          some (a, SearchState.mk (w64 (a.header.offset + 1)) buf (pos + 1) 0 la) := by
        simp [next, needIoctl, nextStep, finish, hget]
      rw [sessionItems_succ, hnext]
      rfl
    | cons b q'' =>
      have el : (a :: b :: q'' : List IoctlSearchItem).length =
          (b :: q'' : List IoctlSearchItem).length + 1 := rfl
      rw [el]
      have ef : f + ((b :: q'' : List IoctlSearchItem).length + 1) =
          (f + (b :: q'' : List IoctlSearchItem).length) + 1 := rfl
      rw [ef]
      have hnext : next k
          (SearchState.mk mo buf pos
            ((b :: q'' : List IoctlSearchItem).length + 1) la) =
          some (a, SearchState.mk mo buf (pos + 1)
            (b :: q'' : List IoctlSearchItem).length la) := by
        simp [next, needIoctl, nextStep, finish, hget]
      rw [sessionItems_succ, hnext]
      have hdrop : buf.drop (pos + 1) = b :: q'' := by
        have h2 : buf.drop (pos + 1) = (buf.drop pos).drop 1 := by
          rw [List.drop_drop]
        rw [h2, h1]
        rfl
      have IH := ih f mo buf (pos + 1) la hdrop (by simp)
      show a :: sessionItems k (f + (b :: q'' : List IoctlSearchItem).length)
          (SearchState.mk mo buf (pos + 1)
            (b :: q'' : List IoctlSearchItem).length la) = _
      rw [IH]
      have e3 : lastOffset (b :: q'') = lastOffset (a :: b :: q'') := by
        simp [lastOffset]
      have e4 : (pos + 1) + (b :: q'' : List IoctlSearchItem).length =
          pos + ((b :: q'' : List IoctlSearchItem).length + 1) := by
        omega
      rw [e3, e4]
      rfl

theorem midPage_ioctls (k : SearchKernel) :
    ∀ (q : List IoctlSearchItem) (f : Nat) (mo : Nat)
      (buf : List IoctlSearchItem) (pos : Nat) (la : Bool),
      buf.drop pos = q → q ≠ [] →
      sessionIoctls k (f + q.length) (SearchState.mk mo buf pos q.length la) =
        sessionIoctls k f
          (SearchState.mk (w64 (lastOffset q + 1)) buf (pos + q.length) 0 la) := by
  intro q
  induction q with
  | nil => intro f mo buf pos la _ h3; exact absurd rfl h3
  | cons a q' ih =>
    intro f mo buf pos la h1 _
    have hget : buf[pos]? = some a := by
      rw [← List.head?_drop, h1]
      rfl
    cases q' with
    | nil =>
      have el : ([a] : List IoctlSearchItem).length = 1 := rfl
      rw [el]
      have hnext : next k (SearchState.mk mo buf pos 1 la) =
          some (a, SearchState.mk (w64 (a.header.offset + 1)) buf (pos + 1) 0 la) := by
        simp [next, needIoctl, nextStep, finish, hget]
      rw [sessionIoctls_succ, hnext]
      have e0 : lastOffset [a] = a.header.offset := rfl
      rw [e0]
      simp [needIoctl]
    | cons b q'' =>
      have el : (a :: b :: q'' : List IoctlSearchItem).length =
          (b :: q'' : List IoctlSearchItem).length + 1 := rfl
      rw [el]
      have ef : f + ((b :: q'' : List IoctlSearchItem).length + 1) =
          (f + (b :: q'' : List IoctlSearchItem).length) + 1 := rfl
      rw [ef]
      have hnext : next k
          (SearchState.mk mo buf pos
            ((b :: q'' : List IoctlSearchItem).length + 1) la) =
          some (a, SearchState.mk mo buf (pos + 1)
            (b :: q'' : List IoctlSearchItem).length la) := by
        simp [next, needIoctl, nextStep, finish, hget]
      rw [sessionIoctls_succ, hnext]
      have hdrop : buf.drop (pos + 1) = b :: q'' := by
        have h2 : buf.drop (pos + 1) = (buf.drop pos).drop 1 := by
          rw [List.drop_drop]
        rw [h2, h1]
        rfl
      have IH := ih f mo buf (pos + 1) la hdrop (by simp)
      have e3 : lastOffset (b :: q'') = lastOffset (a :: b :: q'') := by
        simp [lastOffset]
      have e4 : (pos + 1) + (b :: q'' : List IoctlSearchItem).length =
          pos + ((b :: q'' : List IoctlSearchItem).length + 1) := by
        omega
      rw [e3, e4] at IH
      show (if needIoctl (SearchState.mk mo buf pos
          ((b :: q'' : List IoctlSearchItem).length + 1) la) then 1 else 0) +
          sessionIoctls k (f + (b :: q'' : List IoctlSearchItem).length)
            (SearchState.mk mo buf (pos + 1)
              (b :: q'' : List IoctlSearchItem).length la) = _
      rw [IH]
      simp [needIoctl]

theorem streamRun (k : SearchKernel) :
    ∀ (ps : List (List IoctlSearchItem)) (mo : Nat)
      (buf : List IoctlSearchItem) (pos : Nat),
      Streams k mo ps → nonFinalBig ps →
      sessionItems k (ps.flatten.length + 1) (SearchState.mk mo buf pos 0 false) =
        ps.flatten := by
  intro ps
  induction ps with
  | nil =>
    intro mo buf pos hs _
    have hs' : k mo = [] := hs
    rw [show (List.flatten ([] : List (List IoctlSearchItem))).length + 1 = 0 + 1
      from rfl]
    rw [sessionItems_succ]
    have hn : next k (SearchState.mk mo buf pos 0 false) = none := by
      simp [next, needIoctl, callIoctl, hs', nextStep, finish]
    rw [hn]
    rfl
  | cons p rest ih =>
    intro mo buf pos hs hbig
    have hs1 : k mo = p ∧ p ≠ [] ∧ Streams k (w64 (lastOffset p + 1)) rest := hs
    obtain ⟨hk, hne, hstr⟩ := hs1
    have hni : needIoctl (SearchState.mk mo buf pos 0 false) = true := by
      simp [needIoctl]
    rw [← sessionItems_callIoctl k _ hni]
    have hcall : callIoctl k (SearchState.mk mo buf pos 0 false) =
        SearchState.mk mo p 0 p.length (decide (p.length ≤ 512)) := by
      simp [callIoctl, hk]
    rw [hcall]
    have hfuel : (List.flatten (p :: rest)).length + 1 =
        (rest.flatten.length + 1) + p.length := by
      rw [show List.flatten (p :: rest) = p ++ rest.flatten from rfl]
      rw [List.length_append]
      omega
    rw [hfuel]
    rw [midPage_items k p (rest.flatten.length + 1) mo p 0
      (decide (p.length ≤ 512)) (by simp) hne]
    rw [show List.flatten (p :: rest) = p ++ rest.flatten from rfl]
    congr 1
    cases rest with
    | nil =>
      have hk2 : k (w64 (lastOffset p + 1)) = [] := hstr
      by_cases hle : p.length ≤ 512
      · rw [show (decide (p.length ≤ 512)) = true by simp [hle]]
        exact (sessionItems_finish k _ rfl rfl _).trans rfl
      · rw [show (decide (p.length ≤ 512)) = false by simp [hle]]
        rw [show (List.flatten ([] : List (List IoctlSearchItem))).length + 1 = 0 + 1
          from rfl]
        rw [sessionItems_succ]
        have hn : next k
            (SearchState.mk (w64 (lastOffset p + 1)) p (0 + p.length) 0 false) =
            none := by
          simp [next, needIoctl, callIoctl, hk2, nextStep, finish]
        rw [hn]
        rfl
    | cons p2 rest' =>
      have hbig' : 512 < p.length ∧ nonFinalBig (p2 :: rest') := hbig
      obtain ⟨hgt, hbig2⟩ := hbig'
      rw [show (decide (p.length ≤ 512)) = false by simp; omega]
      exact ih (w64 (lastOffset p + 1)) p (0 + p.length) hstr hbig2

/-- Claim C3 (amended): if the kernel serves the record sequence as a
sequence of pages in which every page before the last holds more than
512 items, the session yields exactly the concatenation of the pages —
the same ordered sequence a single unpaginated pass would produce. -/
theorem c3_pagination_amended (kernel : SearchKernel)
    (ps : List (List IoctlSearchItem))
    (hs : Streams kernel 0 ps) (hbig : nonFinalBig ps) :
    sessionItems kernel (ps.flatten.length + 1) (initState kernel) =
      ps.flatten := by
  unfold initState
  rw [sessionItems_callIoctl kernel _ (by simp [needIoctl])]
  exact streamRun kernel ps 0 [] 0 hs hbig




/-- Claim C3 (counterexample): the kernel `cexKernel` partitions the
two-record sequence into two pages of one item each (a legitimate
partition, served exactly at the offsets the session queries), yet the
session yields only the first record — not the same sequence as an
unpaginated pass — because the first page is at or below the 512-item
low-water mark. -/
theorem c3_pagination_counterexample :
    Streams cexKernel 0 [[cexItem0], [cexItem1]] ∧
    ([[cexItem0], [cexItem1]] : List (List IoctlSearchItem)).flatten =
      [cexItem0, cexItem1] ∧
    sessionItems cexKernel
      (([[cexItem0], [cexItem1]] : List (List IoctlSearchItem)).flatten.length + 1)
      (initState cexKernel) = [cexItem0] ∧
    ([cexItem0] : List IoctlSearchItem) ≠ [cexItem0, cexItem1] := by
  refine ⟨⟨?_, ?_, ?_, ?_, ?_⟩, rfl, ?_, ?_⟩
  · decide
  · decide
  · decide
  · decide
  · show cexKernel (w64 (lastOffset [cexItem1] + 1)) = []
    decide
  · decide
  · decide


/-- Witness for C3 (amended) at a concrete single-page partition: the
session yields both records of the page. -/
theorem c3_pagination_amended_witness :
    (Streams c3wKernel 0 [[cexItem0, cexItem1]] ∧
      nonFinalBig [[cexItem0, cexItem1]]) ∧
    sessionItems c3wKernel
      (([[cexItem0, cexItem1]] : List (List IoctlSearchItem)).flatten.length + 1)
      (initState c3wKernel) =
      ([[cexItem0, cexItem1]] : List (List IoctlSearchItem)).flatten := by
  have hstr : Streams c3wKernel 0 [[cexItem0, cexItem1]] := by
    refine ⟨by decide, by decide, ?_⟩
    show c3wKernel (w64 (lastOffset [cexItem0, cexItem1] + 1)) = []
    decide
  exact ⟨⟨hstr, trivial⟩,
    c3_pagination_amended c3wKernel [[cexItem0, cexItem1]] hstr trivial⟩

/-- Claim C4: a page load that returns at most 512 items marks the
session final: the session yields exactly the just-loaded records,
issues no further kernel query, and ends. -/
theorem c4_low_water_final (kernel : SearchKernel) (s : SearchState) (fuel : Nat)
    (hle : (kernel s.minOffset).length ≤ 512)
    (hfuel : (kernel s.minOffset).length < fuel) :
    sessionItems kernel fuel (callIoctl kernel s) = kernel s.minOffset ∧
    sessionIoctls kernel fuel (callIoctl kernel s) = 0 := by
  obtain ⟨mo, buf, pos, nr, la⟩ := s
  dsimp only at hle hfuel ⊢
  obtain ⟨f, hf⟩ : ∃ f, fuel = (f + 1) + (kernel mo).length :=
    ⟨fuel - (kernel mo).length - 1, by omega⟩
  subst hf
  have hcall : callIoctl kernel (SearchState.mk mo buf pos nr la) =
      SearchState.mk mo (kernel mo) 0 (kernel mo).length
        (decide ((kernel mo).length ≤ 512)) := rfl
  rw [hcall]
  rw [show (decide ((kernel mo).length ≤ 512)) = true by simp [hle]]
  cases hpage : kernel mo with
  | nil =>
    exact ⟨sessionItems_finish kernel _ rfl rfl _,
      sessionIoctls_finish kernel _ rfl rfl _⟩
  | cons a q =>
    constructor
    · rw [midPage_items kernel (a :: q) (f + 1) mo (a :: q) 0 true
        (by simp) (by simp)]
      rw [sessionItems_finish kernel _ rfl rfl (f + 1)]
      simp
    · rw [midPage_ioctls kernel (a :: q) (f + 1) mo (a :: q) 0 true
        (by simp) (by simp)]
      exact sessionIoctls_finish kernel _ rfl rfl (f + 1)


/-- Witness for C4 at a concrete one-record page load. -/
theorem c4_low_water_final_witness :
    ((c4Kernel (SearchState.mk 0 [] 0 0 false).minOffset).length ≤ 512 ∧
      (c4Kernel (SearchState.mk 0 [] 0 0 false).minOffset).length < 2) ∧
    (sessionItems c4Kernel 2 (callIoctl c4Kernel (SearchState.mk 0 [] 0 0 false)) =
        c4Kernel (SearchState.mk 0 [] 0 0 false).minOffset ∧
      sessionIoctls c4Kernel 2
        (callIoctl c4Kernel (SearchState.mk 0 [] 0 0 false)) = 0) :=
  ⟨⟨by decide, by decide⟩,
    c4_low_water_final c4Kernel (SearchState.mk 0 [] 0 0 false) 2
      (by decide) (by decide)⟩

/-- Claim C5: when a `next()` call returns the last buffered record
(leaving `nrest_item = 0`) and the final page has not been seen, the
query range's `min_offset` now sits at one plus that record's logical
offset, and the following `next()` re-issues the kernel query through
`call_ioctl`, which loads the page served at that offset, resets the
cursor to the start of the buffer and records the number of returned
items as the new remaining-item counter. -/
theorem c5_requery (kernel : SearchKernel) (s0 : SearchState)
    (r : IoctlSearchItem) (s1 : SearchState)
    (h : next kernel s0 = some (r, s1)) (h0 : s1.nrestItem = 0)
    (hl : s1.last = false) (hoff : r.header.offset + 1 < 2 ^ 64) :
    s1.minOffset = r.header.offset + 1 ∧
    next kernel s1 = nextStep (callIoctl kernel s1) ∧
    callIoctl kernel s1 = SearchState.mk s1.minOffset
      (kernel (r.header.offset + 1)) 0
      (kernel (r.header.offset + 1)).length
      (decide ((kernel (r.header.offset + 1)).length ≤ 512)) := by
  have hw : w64 (r.header.offset + 1) = r.header.offset + 1 :=
    Nat.mod_eq_of_lt hoff
  unfold next at h
  generalize (if needIoctl s0 = true then callIoctl kernel s0 else s0) = t at h
  obtain ⟨tm, tb, tp, tn, tl⟩ := t
  unfold nextStep at h
  by_cases hfin : finish (SearchState.mk tm tb tp tn tl) = true
  · rw [if_pos hfin] at h
    exact absurd h (by simp)
  · rw [if_neg hfin] at h
    rcases hg : tb[tp]? with _ | ret
    · rw [hg] at h
      exact absurd h (by simp)
    · rw [hg] at h
      simp only [Option.some.injEq, Prod.mk.injEq] at h
      obtain ⟨hr, hs1⟩ := h
      subst hr
      by_cases hz : (tn - 1 == 0) = true
      · rw [if_pos hz] at hs1
        subst hs1
        have htl : tl = false := hl
        subst htl
        refine ⟨by simpa [w64] using hw, ?_, ?_⟩
        · have hni : needIoctl (SearchState.mk (w64 (ret.header.offset + 1))
              tb (tp + 1) (tn - 1) false) = true := by
            simp [needIoctl]
            simpa using hz
          unfold next
          rw [if_pos hni]
        · have e : (SearchState.mk (w64 (ret.header.offset + 1)) tb (tp + 1)
              (tn - 1) false).minOffset = ret.header.offset + 1 := hw
          rw [callIoctl, e]
      · rw [if_neg hz] at hs1
        exfalso
        apply hz
        have h0' : tn - 1 = 0 := by
          rw [← hs1] at h0
          exact h0
        simp [h0']

/-- Witness for C5: a session whose buffer holds one last record at
offset 0; consuming it sets `min_offset` to 1 and the following
`next()` re-queries the kernel there. -/
theorem c5_requery_witness :
    (next c5Kernel (SearchState.mk 0 [cexItem0] 0 1 false) =
        some (cexItem0, SearchState.mk 1 [cexItem0] 1 0 false) ∧
      (SearchState.mk 1 [cexItem0] 1 0 false).nrestItem = 0 ∧
      (SearchState.mk 1 [cexItem0] 1 0 false).last = false ∧
      cexItem0.header.offset + 1 < 2 ^ 64) ∧
    ((SearchState.mk 1 [cexItem0] 1 0 false).minOffset =
        cexItem0.header.offset + 1 ∧
      next c5Kernel (SearchState.mk 1 [cexItem0] 1 0 false) =
        nextStep (callIoctl c5Kernel (SearchState.mk 1 [cexItem0] 1 0 false)) ∧
      callIoctl c5Kernel (SearchState.mk 1 [cexItem0] 1 0 false) =
        SearchState.mk (SearchState.mk 1 [cexItem0] 1 0 false).minOffset
          (c5Kernel (cexItem0.header.offset + 1)) 0
          (c5Kernel (cexItem0.header.offset + 1)).length
          (decide ((c5Kernel (cexItem0.header.offset + 1)).length ≤ 512))) :=
  ⟨⟨by decide, rfl, rfl, by decide⟩,
    c5_requery c5Kernel (SearchState.mk 0 [cexItem0] 0 1 false) cexItem0
      (SearchState.mk 1 [cexItem0] 1 0 false) (by decide) rfl rfl (by decide)⟩

/-! ### Dedup accounting lemmas -/

theorem w64_lt (x : Nat) : w64 x < 2 ^ 64 :=
  Nat.mod_lt x (by norm_num)

theorem workerStep_fst (m : Finset ℕ) (acc : CompsizeStat) (e : ExtentRecord) :
    (workerStep m acc e).1 =
      if e.1.type = ExtentType.Inline then m else insert e.1.key m := by
  obtain ⟨⟨ty, k⟩, c, st⟩ := e
  cases ty <;> simp [workerStep, dedupInsert]

theorem workerStep_fst_regular (m : Finset ℕ) (acc : CompsizeStat)
    (k : ℕ) (ec : Compression) (st : ExtentStat) :
    (workerStep m acc (ExtentKey.mk ExtentType.Regular k, ec, st)).1 =
      insert k m := by
  simp [workerStep, dedupInsert]

theorem workerStep_fst_prealloc (m : Finset ℕ) (acc : CompsizeStat)
    (k : ℕ) (ec : Compression) (st : ExtentStat) :
    (workerStep m acc (ExtentKey.mk ExtentType.Prealloc k, ec, st)).1 =
      insert k m := by
  simp [workerStep, dedupInsert]

theorem workerStep_stat_regular (m : Finset ℕ) (acc : CompsizeStat)
    (k : ℕ) (ec : Compression) (st : ExtentStat) (c : Compression) :
    (workerStep m acc (ExtentKey.mk ExtentType.Regular k, ec, st)).2.stat c =
      if c = ec then
        ExtentStat.mk
          (if k ∈ m then (acc.stat ec).disk
           else w64 ((acc.stat ec).disk + st.disk))
          (if k ∈ m then (acc.stat ec).uncomp
           else w64 ((acc.stat ec).uncomp + st.uncomp))
          (w64 ((acc.stat ec).refd + st.refd))
      else acc.stat c := by
  by_cases hk : k ∈ m <;> by_cases hc : c = ec <;>
    simp [workerStep, dedupInsert, hk, hc]

theorem workerStep_prealloc_regular (m : Finset ℕ) (acc : CompsizeStat)
    (k : ℕ) (ec : Compression) (st : ExtentStat) :
    (workerStep m acc (ExtentKey.mk ExtentType.Regular k, ec, st)).2.prealloc =
      acc.prealloc := by
  simp [workerStep]

theorem workerStep_stat_prealloc (m : Finset ℕ) (acc : CompsizeStat)
    (k : ℕ) (ec : Compression) (st : ExtentStat) (c : Compression) :
    (workerStep m acc (ExtentKey.mk ExtentType.Prealloc k, ec, st)).2.stat c =
      acc.stat c := by
  simp [workerStep]

theorem workerStep_prealloc_prealloc (m : Finset ℕ) (acc : CompsizeStat)
    (k : ℕ) (ec : Compression) (st : ExtentStat) :
    (workerStep m acc (ExtentKey.mk ExtentType.Prealloc k, ec, st)).2.prealloc =
      ExtentStat.mk
        (if k ∈ m then acc.prealloc.disk
         else w64 (acc.prealloc.disk + st.disk))
        (if k ∈ m then acc.prealloc.uncomp
         else w64 (acc.prealloc.uncomp + st.uncomp))
        (w64 (acc.prealloc.refd + st.refd)) := by
  by_cases hk : k ∈ m <;> simp [workerStep, dedupInsert, hk]


theorem statBounded_zero : statBounded CompsizeStat.zero := by
  refine ⟨fun c => ⟨?_, ?_, ?_⟩, ?_, ?_, ?_⟩ <;> norm_num [CompsizeStat.zero]

theorem statBounded_step (m : Finset ℕ) (acc : CompsizeStat) (e : ExtentRecord)
    (hb : statBounded acc) : statBounded (workerStep m acc e).2 := by
  obtain ⟨⟨ty, k⟩, ec, st⟩ := e
  obtain ⟨hstat, hp1, hp2, hp3⟩ := hb
  cases ty with
  | Inline =>
    refine ⟨fun c => ?_, ?_, ?_, ?_⟩
    · by_cases hc : c = ec
      · simp only [workerStep, hc, if_pos rfl]
        exact ⟨w64_lt _, w64_lt _, w64_lt _⟩
      · simpa [workerStep, hc] using hstat c
    · simpa [workerStep] using hp1
    · simpa [workerStep] using hp2
    · simpa [workerStep] using hp3
  | Regular =>
    refine ⟨fun c => ?_, ?_, ?_, ?_⟩
    · rw [workerStep_stat_regular]
      by_cases hc : c = ec
      · rw [if_pos hc]
        by_cases hk : k ∈ m
        · simp only [if_pos hk]
          exact ⟨(hstat ec).1, (hstat ec).2.1, w64_lt _⟩
        · simp only [if_neg hk]
          exact ⟨w64_lt _, w64_lt _, w64_lt _⟩
      · rw [if_neg hc]
        exact hstat c
    · rw [workerStep_prealloc_regular]; exact hp1
    · rw [workerStep_prealloc_regular]; exact hp2
    · rw [workerStep_prealloc_regular]; exact hp3
  | Prealloc =>
    refine ⟨fun c => ?_, ?_, ?_, ?_⟩
    · rw [workerStep_stat_prealloc]; exact hstat c
    · rw [workerStep_prealloc_prealloc]
      by_cases hk : k ∈ m
      · simp only [if_pos hk]; exact hp1
      · simp only [if_neg hk]; exact w64_lt _
    · rw [workerStep_prealloc_prealloc]
      by_cases hk : k ∈ m
      · simp only [if_pos hk]; exact hp2
      · simp only [if_neg hk]; exact w64_lt _
    · rw [workerStep_prealloc_prealloc]
      exact w64_lt _

theorem nonInlineIds_cons (e : ExtentRecord) (r : List ExtentRecord) :
    nonInlineIds (e :: r) =
      if e.1.type = ExtentType.Inline then nonInlineIds r
      else e.1.key :: nonInlineIds r := by
  by_cases h : e.1.type = ExtentType.Inline <;>
    simp [nonInlineIds, List.filterMap_cons, h]

theorem idsOf_cons (e : ExtentRecord) (r : List ExtentRecord) :
    idsOf (e :: r) =
      if e.1.type = ExtentType.Inline then idsOf r
      else insert e.1.key (idsOf r) := by
  by_cases h : e.1.type = ExtentType.Inline <;>
    simp [idsOf, nonInlineIds_cons, h]

theorem workerRun_fst :
    ∀ (l : List ExtentRecord) (m : Finset ℕ) (acc : CompsizeStat),
      (workerRun m acc l).1 = m ∪ idsOf l := by
  intro l
  induction l with
  | nil => intro m acc; simp [workerRun, idsOf, nonInlineIds]
  | cons e r ih =>
    intro m acc
    show (workerRun (workerStep m acc e).1 (workerStep m acc e).2 r).1 = _
    rw [ih, workerStep_fst, idsOf_cons]
    by_cases h : e.1.type = ExtentType.Inline
    · simp [h]
    · simp [h, Finset.insert_union, Finset.union_insert]

theorem firstOccs_cons_mem (m : Finset ℕ) (ty : ExtentType) (k : ℕ)
    (ec : Compression) (st : ExtentStat) (r : List ExtentRecord)
    (hk : k ∈ m) :
    firstOccs m ((ExtentKey.mk ty k, ec, st) :: r) = firstOccs m r := by
  cases ty <;> simp [firstOccs, hk]

theorem firstOccs_cons_not_mem (m : Finset ℕ) (ty : ExtentType) (k : ℕ)
    (ec : Compression) (st : ExtentStat) (r : List ExtentRecord)
    (hk : k ∉ m) (hty : ty ≠ ExtentType.Inline) :
    firstOccs m ((ExtentKey.mk ty k, ec, st) :: r) =
      (ExtentKey.mk ty k, ec, st) :: firstOccs (insert k m) r := by
  cases ty with
  | Inline => exact absurd rfl hty
  | Regular => simp [firstOccs, hk]
  | Prealloc => simp [firstOccs, hk]

theorem workerRun_spec :
    ∀ (l : List ExtentRecord) (m : Finset ℕ) (acc : CompsizeStat),
      (∀ e ∈ l, e.1.type ≠ ExtentType.Inline) → statBounded acc →
      (∀ c,
        ((workerRun m acc l).2.stat c).disk =
          w64 ((acc.stat c).disk + regDisk c (firstOccs m l)) ∧
        ((workerRun m acc l).2.stat c).uncomp =
          w64 ((acc.stat c).uncomp + regUncomp c (firstOccs m l)) ∧
        ((workerRun m acc l).2.stat c).refd =
          w64 ((acc.stat c).refd + regRefd c l)) ∧
      ((workerRun m acc l).2.prealloc.disk =
        w64 (acc.prealloc.disk + preDisk (firstOccs m l)) ∧
       (workerRun m acc l).2.prealloc.uncomp =
        w64 (acc.prealloc.uncomp + preUncomp (firstOccs m l)) ∧
       (workerRun m acc l).2.prealloc.refd =
        w64 (acc.prealloc.refd + preRefd l)) := by
  intro l
  induction l with
  | nil =>
    intro m acc _ hb
    obtain ⟨hstat, hp1, hp2, hp3⟩ := hb
    constructor
    · intro c
      obtain ⟨h1, h2, h3⟩ := hstat c
      refine ⟨?_, ?_, ?_⟩ <;>
        simp [workerRun, firstOccs, regDisk, regUncomp, regRefd, w64] <;>
        omega
    · refine ⟨?_, ?_, ?_⟩ <;>
        simp [workerRun, firstOccs, preDisk, preUncomp, preRefd, w64] <;>
        omega
  | cons e r ih =>
    intro m acc hnl hb
    obtain ⟨⟨ty, k⟩, ec, st⟩ := e
    have hty : ty ≠ ExtentType.Inline := by
      have h := hnl _ (List.mem_cons_self _ _)
      simpa using h
    have hnl' : ∀ x ∈ r, x.1.type ≠ ExtentType.Inline :=
      fun x hx => hnl x (List.mem_cons_of_mem _ hx)
    have hb' := statBounded_step m acc (ExtentKey.mk ty k, ec, st) hb
    have IH := ih (workerStep m acc (ExtentKey.mk ty k, ec, st)).1
      (workerStep m acc (ExtentKey.mk ty k, ec, st)).2 hnl' hb'
    have hrun : workerRun m acc ((ExtentKey.mk ty k, ec, st) :: r) =
        workerRun (workerStep m acc (ExtentKey.mk ty k, ec, st)).1
          (workerStep m acc (ExtentKey.mk ty k, ec, st)).2 r := rfl
    rw [hrun]
    cases ty with
    | Inline => exact absurd rfl hty
    | Regular =>
      rw [workerStep_fst_regular] at IH ⊢
      simp only [workerStep_stat_regular, workerStep_prealloc_regular] at IH
      by_cases hk : k ∈ m
      · rw [Finset.insert_eq_self.mpr hk] at IH ⊢
        rw [firstOccs_cons_mem m ExtentType.Regular k ec st r hk]
        obtain ⟨IHs, IHp1, IHp2, IHp3⟩ := IH
        constructor
        · intro c
          obtain ⟨I1, I2, I3⟩ := IHs c
          refine ⟨?_, ?_, ?_⟩
          · rw [I1]
            by_cases hc : c = ec
            · subst hc
              simp [hk]
            · simp [hc]
          · rw [I2]
            by_cases hc : c = ec
            · subst hc
              simp [hk]
            · simp [hc]
          · rw [I3]
            by_cases hc : c = ec
            · subst hc
              simp [regRefd, w64] <;> omega
            · have hc2 : ¬(ec = c) := fun h => hc h.symm
              simp [hc, hc2, regRefd, w64]
        · exact ⟨IHp1, IHp2, by rw [IHp3]; simp [preRefd]⟩
      · rw [firstOccs_cons_not_mem m ExtentType.Regular k ec st r hk hty]
        obtain ⟨IHs, IHp1, IHp2, IHp3⟩ := IH
        constructor
        · intro c
          obtain ⟨I1, I2, I3⟩ := IHs c
          refine ⟨?_, ?_, ?_⟩
          · rw [I1]
            by_cases hc : c = ec
            · subst hc
              simp [hk, regDisk, w64] <;> omega
            · have hc2 : ¬(ec = c) := fun h => hc h.symm
              simp [hc, hc2, regDisk, w64]
          · rw [I2]
            by_cases hc : c = ec
            · subst hc
              simp [hk, regUncomp, w64] <;> omega
            · have hc2 : ¬(ec = c) := fun h => hc h.symm
              simp [hc, hc2, regUncomp, w64]
          · rw [I3]
            by_cases hc : c = ec
            · subst hc
              simp [regRefd, w64] <;> omega
            · have hc2 : ¬(ec = c) := fun h => hc h.symm
              simp [hc, hc2, regRefd, w64]
        · refine ⟨?_, ?_, ?_⟩
          · rw [IHp1]
            simp [preDisk]
          · rw [IHp2]
            simp [preUncomp]
          · rw [IHp3]
            simp [preRefd]
    | Prealloc =>
      rw [workerStep_fst_prealloc] at IH ⊢
      simp only [workerStep_stat_prealloc, workerStep_prealloc_prealloc] at IH
      by_cases hk : k ∈ m
      · rw [Finset.insert_eq_self.mpr hk] at IH ⊢
        rw [firstOccs_cons_mem m ExtentType.Prealloc k ec st r hk]
        obtain ⟨IHs, IHp1, IHp2, IHp3⟩ := IH
        constructor
        · intro c
          obtain ⟨I1, I2, I3⟩ := IHs c
          exact ⟨I1, I2, by rw [I3]; simp [regRefd]⟩
        · simp only [if_pos hk] at IHp1 IHp2
          refine ⟨IHp1, IHp2, ?_⟩
          rw [IHp3]
          simp [preRefd, w64] <;> omega
      · rw [firstOccs_cons_not_mem m ExtentType.Prealloc k ec st r hk hty]
        obtain ⟨IHs, IHp1, IHp2, IHp3⟩ := IH
        constructor
        · intro c
          obtain ⟨I1, I2, I3⟩ := IHs c
          refine ⟨?_, ?_, ?_⟩
          · rw [I1]
            simp [regDisk]
          · rw [I2]
            simp [regUncomp]
          · rw [I3]
            simp [regRefd]
        · simp only [if_neg hk] at IHp1 IHp2
          refine ⟨?_, ?_, ?_⟩
          · rw [IHp1]
            simp [preDisk, w64] <;> omega
          · rw [IHp2]
            simp [preUncomp, w64] <;> omega
          · rw [IHp3]
            simp [preRefd, w64] <;> omega

/-- Claim C8: over any serialized run of classified non-inline
extents, the dedup set's insert answers `true` exactly for
never-before-inserted ids (both as an operation and at every position
of the run); the final set is exactly the ids seen, so the
distinct-extent counter (the set's final size, which `ExtentMap::run`
reports as `nextent`) equals the number of unique ids; `disk` and
`uncomp` accumulate only over first occurrences of each id; and `refd`
accumulates over every reference. -/
theorem c8_dedup_accounting (l : List ExtentRecord)
    (hnl : ∀ e ∈ l, e.1.type ≠ ExtentType.Inline) :
    (∀ (m : Finset ℕ) (k : ℕ), (dedupInsert m k).1 = true ↔ k ∉ m) ∧
    (∀ p e rest, l = p ++ e :: rest →
      ((dedupInsert (workerRun ∅ CompsizeStat.zero p).1 e.1.key).1 = true ↔
        e.1.key ∉ idsOf p)) ∧
    (workerRun ∅ CompsizeStat.zero l).1 = idsOf l ∧
    (workerRun ∅ CompsizeStat.zero l).1.card =
      (nonInlineIds l).dedup.length ∧
    (∀ c,
      ((workerRun ∅ CompsizeStat.zero l).2.stat c).disk =
        w64 (regDisk c (firstOccs ∅ l)) ∧
      ((workerRun ∅ CompsizeStat.zero l).2.stat c).uncomp =
        w64 (regUncomp c (firstOccs ∅ l)) ∧
      ((workerRun ∅ CompsizeStat.zero l).2.stat c).refd =
        w64 (regRefd c l)) ∧
    ((workerRun ∅ CompsizeStat.zero l).2.prealloc.disk =
      w64 (preDisk (firstOccs ∅ l)) ∧
     (workerRun ∅ CompsizeStat.zero l).2.prealloc.uncomp =
      w64 (preUncomp (firstOccs ∅ l)) ∧
     (workerRun ∅ CompsizeStat.zero l).2.prealloc.refd =
      w64 (preRefd l)) := by
  have hins : ∀ (m : Finset ℕ) (k : ℕ), (dedupInsert m k).1 = true ↔ k ∉ m := by
    intro m k
    simp [dedupInsert]
  have hspec := workerRun_spec l ∅ CompsizeStat.zero hnl statBounded_zero
  obtain ⟨hstat, hpre⟩ := hspec
  refine ⟨hins, ?_, ?_, ?_, ?_, ?_⟩
  · intro p e rest _
    rw [hins, workerRun_fst]
    simp
  · rw [workerRun_fst]
    simp
  · rw [workerRun_fst]
    simp only [Finset.empty_union, idsOf]
    exact rfl
  · intro c
    obtain ⟨h1, h2, h3⟩ := hstat c
    refine ⟨?_, ?_, ?_⟩
    · rw [h1]
      simp [CompsizeStat.zero]
    · rw [h2]
      simp [CompsizeStat.zero]
    · rw [h3]
      simp [CompsizeStat.zero]
  · obtain ⟨h1, h2, h3⟩ := hpre
    refine ⟨?_, ?_, ?_⟩
    · rw [h1]
      simp [CompsizeStat.zero]
    · rw [h2]
      simp [CompsizeStat.zero]
    · rw [h3]
      simp [CompsizeStat.zero]


/-- Witness for C8 at the concrete run `c8List`. -/
theorem c8_dedup_accounting_witness :
    (∀ e ∈ c8List, e.1.type ≠ ExtentType.Inline) ∧
    (workerRun ∅ CompsizeStat.zero c8List).1 = idsOf c8List ∧
    (workerRun ∅ CompsizeStat.zero c8List).1.card =
      (nonInlineIds c8List).dedup.length :=
  ⟨by decide, (c8_dedup_accounting c8List (by decide)).2.2.1,
    (c8_dedup_accounting c8List (by decide)).2.2.2.1⟩

end Xize
